import Mathlib

/-! Verification of the review-response pipeline of `src/app.py`.

Python strings are modelled as `List Char`.  The two external effects the
pipeline touches — the hosted model call `llm.invoke(prompt).content` and the
CPython parser `ast.parse` — are passed in as oracle parameters, so every
function of the file is a pure, executable translation of the source.
-/

namespace PeerCodeReview

/-- The whitespace characters stripped by Python `str.strip()` (ASCII range). -/
def isPyWhitespace (c : Char) : Bool :=
  c = ' ' || c = '\t' || c = '\n' || c = '\r' || c = '\x0b' || c = '\x0c'

/-- Python `str.strip()`: remove leading and trailing whitespace. -/
def pyStrip (s : List Char) : List Char :=
  ((s.dropWhile isPyWhitespace).reverse.dropWhile isPyWhitespace).reverse

/-- Model of Python `str.lower()` on one character, for the ASCII alphabet
(the only characters the language names of the application use). -/
def asciiLower (c : Char) : Char :=
  if 'A' ≤ c ∧ c ≤ 'Z' then Char.ofNat (c.toNat + 32) else c

/-- Model of Python `str.lower()`: lower-case every character. -/
def pyLower (s : List Char) : List Char :=
  s.map asciiLower

/-! Validator: validate_response_format (src/app.py lines 26-34)

The source checks `re.search(section, response, re.MULTILINE)` for four
patterns of the shape `^<escaped literal header>`.  Every regex operator in
those patterns is escaped, so each search succeeds exactly when the literal
header occurs at the start of the string or directly after a newline. -/

def issuesHeader : List Char := "**Issues:**".data

def correctedHeader : List Char := "**Corrected Code (Preserve Indentation):**".data

def optimizedHeader : List Char := "**Optimized Code:**".data

def explanationHeader : List Char := "**Explanation:**".data

def required_sections : List (List Char) :=
  [issuesHeader, correctedHeader, optimizedHeader, explanationHeader]

/-- Scan for the header directly after some newline of the text
(the `^` positions other than the start of the string, `re.MULTILINE`). -/
def searchMultilineAux (header : List Char) : List Char → Bool
  | [] => false
  | c :: rest => (c = '\n' && header.isPrefixOf rest) || searchMultilineAux header rest

/-- One full multiline search, `re.search(r"^<header>", s, re.MULTILINE)`:
the header occurs at the start
of the string or directly after a newline. -/
def searchMultiline (header s : List Char) : Bool :=
  header.isPrefixOf s || searchMultilineAux header s

/-- The function validate_response_format (src/app.py line 26): all four bolded section
headers are found by an independent multiline search. -/
def validate_response_format (response : List Char) : Bool :=
  required_sections.all (fun sec => searchMultiline sec response)

/-- Declarative reading of one multiline search: the header occurs in the text
at the start of a line (the very start, or right after a newline). -/
def atLineStart (header response : List Char) : Prop :=
  ∃ pre post, response = pre ++ header ++ post ∧
    (pre = [] ∨ ∃ pre2, pre = pre2 ++ ['\n'])

theorem searchMultilineAux_iff (header s : List Char) :
    searchMultilineAux header s = true ↔
      ∃ pre post, s = pre ++ '\n' :: (header ++ post) := by
  induction s with
  | nil =>
    simp [searchMultilineAux]
  | cons c rest ih =>
    simp only [searchMultilineAux, Bool.or_eq_true, Bool.and_eq_true, decide_eq_true_eq, ih]
    constructor
    · rintro (⟨hc, hpre⟩ | ⟨pre, post, hrest⟩)
      · obtain ⟨t, ht⟩ := List.isPrefixOf_iff_prefix.mp hpre
        exact ⟨[], t, by simp [hc, ht]⟩
      · exact ⟨c :: pre, post, by simp [hrest]⟩
    · rintro ⟨pre, post, hs⟩
      cases pre with
      | nil =>
        simp only [List.nil_append, List.cons.injEq] at hs
        refine Or.inl ⟨hs.1, List.isPrefixOf_iff_prefix.mpr ⟨post, hs.2.symm⟩⟩
      | cons p pre2 =>
        simp only [List.cons_append, List.cons.injEq] at hs
        exact Or.inr ⟨pre2, post, hs.2⟩

theorem searchMultiline_iff (header s : List Char) :
    searchMultiline header s = true ↔ atLineStart header s := by
  simp only [searchMultiline, Bool.or_eq_true, List.isPrefixOf_iff_prefix,
    searchMultilineAux_iff, atLineStart]
  constructor
  · rintro (⟨t, ht⟩ | ⟨pre, post, hs⟩)
    · exact ⟨[], t, by simp [ht], Or.inl rfl⟩
    · exact ⟨pre ++ ['\n'], post, by simp [hs], Or.inr ⟨pre, rfl⟩⟩
  · rintro ⟨pre, post, hs, hpre | ⟨pre2, hpre⟩⟩
    · subst hpre
      exact Or.inl ⟨post, by simp [hs]⟩
    · subst hpre
      exact Or.inr ⟨pre2, post, by simpa using hs⟩

theorem validate_response_format_iff (response : List Char) :
    validate_response_format response = true ↔
      ∀ section_ ∈ required_sections, atLineStart section_ response := by
  simp only [validate_response_format, List.all_eq_true, searchMultiline_iff]

/-! Extractor: extract_code_blocks (src/app.py lines 44-61)

The source compiles `fr"```{language}\n(.*?)```"` twice (once as
`corrected_pattern`, once as `optimized_pattern`, with identical text) and
runs `.search` on the response with each.  With `re.DOTALL` and a lazy group,
a search finds the leftmost position where the compiled opening matches and
some closing triple backtick follows, and takes the shortest group stopping
at the first closing triple backtick after the opening.

The interpolated language determines the compiled opening.  When every
character of the language is an ASCII letter or digit, each is a regex
literal and the opening is the literal token three-backticks language
newline; this covers Python, JavaScript, Java and Go.  For the remaining UI
option "C++", CPython 3.11 and later (the interpreter family this dependency
stack runs on; behavior verified against CPython 3.11.6) parses the doubled
plus as a possessive repeat, so the pattern compiles and its opening matches
three backticks, a maximal nonempty run of the letter C, then a newline —
never a literal "C++" tag. -/

def tick3 : List Char := "```".data

/-- The literal opening token of the pattern: three backticks, the language
name, a newline. -/
def openTok (language : List Char) : List Char :=
  tick3 ++ language ++ ['\n']

/-- The lazy group followed by the closing backticks, `(.*?)` + three
backticks: the characters before the first occurrence of three backticks, or
`none` when no three consecutive backticks occur. -/
def findClose : List Char → Option (List Char)
  | [] => none
  | c :: rest =>
    if tick3.isPrefixOf (c :: rest) then some []
    else (findClose rest).map (fun d => c :: d)

/-- One regex search: try the pattern at every position from the left and
return the group of the first full match. -/
def searchFirstBlock (tok : List Char) : List Char → Option (List Char)
  | [] => none
  | c :: rest =>
    match (if tok.isPrefixOf (c :: rest) then findClose ((c :: rest).drop tok.length)
           else none) with
    | some content => some content
    | none => searchFirstBlock tok rest

/-- Whether every character of the language is an ASCII letter or digit:
each is then a regex literal, so the interpolated pattern reads the language
as a literal tag. -/
def isAlnumLang (language : List Char) : Bool :=
  language.all (fun c => ('a' ≤ c && c ≤ 'z') || ('A' ≤ c && c ≤ 'Z') || ('0' ≤ c && c ≤ '9'))

/-- Matching the opening of the compiled "C++" pattern at the head of the
text.  On CPython 3.11 and later the doubled plus of the interpolated "C++"
parses as a possessive repeat of `C`, so the opening matches three backticks,
a maximal nonempty run of the letter C, then a newline (verified against
CPython 3.11.6).  Returns the text after the opening when it matches. -/
def cppOpenRest (s : List Char) : Option (List Char) :=
  if tick3.isPrefixOf s then
    let s1 := s.drop tick3.length
    let run := s1.takeWhile (fun c => c = 'C')
    if run.isEmpty then none
    else
      match s1.drop run.length with
      | '\n' :: rest => some rest
      | _ => none
  else none

/-- One regex search of the compiled "C++" pattern: try the opening at every
position from the left and return the group of the first full match. -/
def searchFirstBlockCpp : List Char → Option (List Char)
  | [] => none
  | c :: rest =>
    match (match cppOpenRest (c :: rest) with
           | some afterOpen => findClose afterOpen
           | none => none) with
    | some content => some content
    | none => searchFirstBlockCpp rest

/-- The languages whose compiled pattern this model covers exactly: the
all-alphanumeric ones (literal tag) and "C++" (possessive repeat).  These
cover all five options of the fixed UI list and every language for which
`review_code` runs the extractor. -/
def langModelled (language : List Char) : Bool :=
  isAlnumLang language || language = "C++".data

/-- The first search of `extract_code_blocks`, from `corrected_pattern`
(src/app.py lines 46-49 and 55): a literal token search when every language
character is a regex literal, the possessive C-run search for "C++". -/
def corrected_pattern_search (response language : List Char) : Option (List Char) :=
  if isAlnumLang language then searchFirstBlock (openTok language) response
  else if language = "C++".data then searchFirstBlockCpp response
  else none

/-- The second search of `extract_code_blocks`, from `optimized_pattern`
(src/app.py lines 50-53 and 56); the source compiles the identical pattern
text a second time. -/
def optimized_pattern_search (response language : List Char) : Option (List Char) :=
  if isAlnumLang language then searchFirstBlock (openTok language) response
  else if language = "C++".data then searchFirstBlockCpp response
  else none

/-- The function extract_code_blocks (src/app.py line 44): run both searches
and strip the group of each match.  `Except.error` marks the languages this
model leaves out: those neither all-alphanumeric nor exactly "C++".  The
program never reaches them — the UI offers a fixed five-option list, all five
modelled, and `review_code` runs the extractor only for languages that
lower-case to "python" — and on CPython 3.11 such patterns may compile with
yet other meanings or raise `re.error`; no theorem below depends on this
branch. -/
def extract_code_blocks (response language : List Char) :
    Except Unit (Option (List Char) × Option (List Char)) :=
  if langModelled language then
    Except.ok ((corrected_pattern_search response language).map pyStrip,
      (optimized_pattern_search response language).map pyStrip)
  else Except.error ()

/-- Declarative reading of a full pattern match at offset `i`: the response
splits into `i` characters, the opening token, the block content, the closing
backticks, and a tail. -/
def blockAt (response language content : List Char) (i : Nat) : Prop :=
  ∃ pre post, pre.length = i ∧
    response = pre ++ openTok language ++ content ++ tick3 ++ post

/-- Declarative reading of the regex search result: `content` matches at the
leftmost offset admitting any full match, and is the shortest content
matching there. -/
def firstBlockIs (response language content : List Char) : Prop :=
  ∃ i, blockAt response language content i ∧
    ∀ c j, blockAt response language c j → i ≤ j ∧ (j = i → content.length ≤ c.length)

theorem findClose_some (l c : List Char) (h : findClose l = some c) :
    (∃ rest, l = c ++ tick3 ++ rest) ∧
      ∀ j, tick3.isPrefixOf (l.drop j) = true → c.length ≤ j := by
  induction l generalizing c with
  | nil => simp [findClose] at h
  | cons a rest ih =>
    rw [findClose] at h
    by_cases hp : tick3.isPrefixOf (a :: rest) = true
    · rw [if_pos hp, Option.some.injEq] at h
      subst h
      obtain ⟨t, ht⟩ := List.isPrefixOf_iff_prefix.mp hp
      exact ⟨⟨t, by simp [ht]⟩, fun j _ => Nat.zero_le j⟩
    · rw [if_neg hp] at h
      obtain ⟨d, hd, hmap⟩ := Option.map_eq_some'.mp h
      subst hmap
      obtain ⟨⟨rest2, hrest⟩, hmin⟩ := ih d hd
      refine ⟨⟨rest2, by simp [hrest]⟩, ?_⟩
      intro j hj
      cases j with
      | zero => simp only [List.drop_zero] at hj; exact absurd hj hp
      | succ j2 =>
        simp only [List.drop_succ_cons] at hj
        simpa [List.length_cons, Nat.succ_le_succ_iff] using hmin j2 hj

theorem findClose_none (l : List Char) (h : findClose l = none) :
    ∀ j, tick3.isPrefixOf (l.drop j) = true → False := by
  induction l with
  | nil =>
    intro j hj
    simp [List.drop_nil, tick3, List.isPrefixOf] at hj
  | cons a rest ih =>
    rw [findClose] at h
    by_cases hp : tick3.isPrefixOf (a :: rest) = true
    · rw [if_pos hp] at h; exact absurd h (by simp)
    · rw [if_neg hp] at h
      intro j hj
      cases j with
      | zero => simp only [List.drop_zero] at hj; exact hp hj
      | succ j2 =>
        simp only [List.drop_succ_cons] at hj
        exact ih (by simpa using h) j2 hj

theorem findClose_isSome_of_decomp (c rest : List Char) :
    findClose (c ++ tick3 ++ rest) ≠ none := by
  intro hnone
  refine findClose_none _ hnone c.length ?_
  rw [List.append_assoc, List.drop_left]
  exact List.isPrefixOf_iff_prefix.mpr ⟨rest, rfl⟩

theorem searchFirstBlock_some (tok l c : List Char)
    (h : searchFirstBlock tok l = some c) :
    ∃ i, tok.isPrefixOf (l.drop i) = true ∧
      findClose (l.drop (i + tok.length)) = some c ∧
      ∀ j, j < i → tok.isPrefixOf (l.drop j) = true →
        findClose (l.drop (j + tok.length)) = none := by
  induction l with
  | nil => simp [searchFirstBlock] at h
  | cons a rest ih =>
    rw [searchFirstBlock] at h
    by_cases hp : tok.isPrefixOf (a :: rest) = true
    · rw [if_pos hp] at h
      rcases hc : findClose ((a :: rest).drop tok.length) with _ | content
      · rw [hc] at h
        obtain ⟨i, h1, h2, h3⟩ := ih h
        refine ⟨i + 1, by simpa using h1, ?_, ?_⟩
        · show findClose ((a :: rest).drop (i + 1 + tok.length)) = some c
          have : i + 1 + tok.length = (i + tok.length) + 1 := by omega
          rw [this, List.drop_succ_cons]
          exact h2
        · intro j hj hjp
          cases j with
          | zero =>
            simpa [Nat.zero_add] using hc
          | succ j2 =>
            have : j2 + 1 + tok.length = (j2 + tok.length) + 1 := by omega
            rw [this, List.drop_succ_cons]
            exact h3 j2 (by omega) (by simpa using hjp)
      · rw [hc] at h
        refine ⟨0, by simpa using hp, ?_, by omega⟩
        simpa [Nat.zero_add, h.symm] using hc
    · rw [if_neg hp] at h
      obtain ⟨i, h1, h2, h3⟩ := ih h
      refine ⟨i + 1, by simpa using h1, ?_, ?_⟩
      · have : i + 1 + tok.length = (i + tok.length) + 1 := by omega
        rw [this, List.drop_succ_cons]
        exact h2
      · intro j hj hjp
        cases j with
        | zero => exact absurd (by simpa using hjp) hp
        | succ j2 =>
          have : j2 + 1 + tok.length = (j2 + tok.length) + 1 := by omega
          rw [this, List.drop_succ_cons]
          exact h3 j2 (by omega) (by simpa using hjp)

theorem searchFirstBlock_none (tok l : List Char)
    (h : searchFirstBlock tok l = none) :
    ∀ j, tok.isPrefixOf (l.drop j) = true →
      findClose (l.drop (j + tok.length)) = none := by
  induction l with
  | nil =>
    intro j _
    simp [List.drop_nil, findClose]
  | cons a rest ih =>
    rw [searchFirstBlock] at h
    rcases hg : (if tok.isPrefixOf (a :: rest) then
        findClose ((a :: rest).drop tok.length) else none) with _ | content
    · rw [hg] at h
      intro j hj
      cases j with
      | zero =>
        by_cases hp : tok.isPrefixOf (a :: rest) = true
        · rw [if_pos hp] at hg
          simpa [Nat.zero_add] using hg
        · exact absurd (by simpa using hj) hp
      | succ j2 =>
        have : j2 + 1 + tok.length = (j2 + tok.length) + 1 := by omega
        rw [this, List.drop_succ_cons]
        exact ih h j2 (by simpa using hj)
    · rw [hg] at h
      exact absurd h (by simp)

theorem blockAt_drops (response language content : List Char) (i : Nat)
    (h : blockAt response language content i) :
    (openTok language).isPrefixOf (response.drop i) = true ∧
      ∃ post, response.drop (i + (openTok language).length) =
        content ++ tick3 ++ post := by
  obtain ⟨pre, post, hlen, heq⟩ := h
  subst heq
  constructor
  · rw [← hlen]
    have hre : pre ++ openTok language ++ content ++ tick3 ++ post =
        pre ++ (openTok language ++ content ++ tick3 ++ post) := by
      simp [List.append_assoc]
    rw [hre, List.drop_left]
    exact List.isPrefixOf_iff_prefix.mpr
      ⟨content ++ tick3 ++ post, by simp [List.append_assoc]⟩
  · refine ⟨post, ?_⟩
    have hre : pre ++ openTok language ++ content ++ tick3 ++ post =
        (pre ++ openTok language) ++ (content ++ tick3 ++ post) := by
      simp [List.append_assoc]
    rw [hre, List.drop_left' (by simp [hlen])]

theorem openTok_ne_nil (language : List Char) : openTok language ≠ [] := by
  simp [openTok, tick3]

theorem searchFirstBlock_some_firstBlock (response language raw : List Char)
    (h : searchFirstBlock (openTok language) response = some raw) :
    firstBlockIs response language raw := by
  obtain ⟨i, hpref, hclose, hmin⟩ := searchFirstBlock_some _ _ _ h
  obtain ⟨⟨rest, hrest⟩, hcmin⟩ := findClose_some _ _ hclose
  obtain ⟨t, ht⟩ := List.isPrefixOf_iff_prefix.mp hpref
  have hi : i ≤ response.length := by
    by_contra hgt
    rw [List.drop_eq_nil_of_le (by omega)] at ht
    exact openTok_ne_nil language (List.append_eq_nil.mp ht).1
  have hdrop2 : t = response.drop (i + (openTok language).length) := by
    have h2 := congrArg (List.drop (openTok language).length) ht
    rw [List.drop_left, List.drop_drop] at h2
    rw [h2, Nat.add_comm]
  have hts : t = raw ++ tick3 ++ rest := by rw [hdrop2, hrest]
  refine ⟨i, ⟨response.take i, rest, by simp [List.length_take]; omega, ?_⟩, ?_⟩
  · show response = response.take i ++ openTok language ++ raw ++ tick3 ++ rest
    conv_lhs => rw [← List.take_append_drop i response, ← ht, hts]
    simp [List.append_assoc]
  · intro c j hcj
    obtain ⟨hjpref, post2, hjdrop⟩ := blockAt_drops _ _ _ _ hcj
    have hle : i ≤ j := by
      by_contra hlt
      have := hmin j (by omega) hjpref
      rw [hjdrop] at this
      exact findClose_isSome_of_decomp _ _ this
    refine ⟨hle, ?_⟩
    intro hji
    subst hji
    rw [hjdrop] at hclose
    refine (findClose_some _ _ hclose).2 c.length ?_
    rw [List.append_assoc, List.drop_left]
    exact List.isPrefixOf_iff_prefix.mpr ⟨post2, rfl⟩

theorem searchFirstBlock_none_noBlock (response language : List Char)
    (h : searchFirstBlock (openTok language) response = none) :
    ∀ c i, ¬ blockAt response language c i := by
  intro c i hblock
  obtain ⟨hpref, post, hdrop⟩ := blockAt_drops _ _ _ _ hblock
  have := searchFirstBlock_none _ _ h i hpref
  rw [hdrop] at this
  exact findClose_isSome_of_decomp _ _ this

/-! Checker: the function validate_python_syntax (src/app.py lines 36-42)

Here `ast.parse` is the CPython parser, external to this repository; it is passed in
as an oracle: `none` when the code parses, `some m` when parsing raises a
`SyntaxError` whose `str()` is `m`. -/

def syntaxErrorBanner : List Char := "🔴 Syntax Error in Generated Code:\n".data

/-- The function validate_python_syntax (src/app.py line 36): empty string when the code
parses, the banner plus the stringified error otherwise. -/
def validate_python_syntax (astParse : List Char → Option (List Char))
    (code : List Char) : List Char :=
  match astParse code with
  | none => []
  | some e => syntaxErrorBanner ++ e

/-! Pipeline: review_code (src/app.py lines 63-104) -/

/-- The TypedDict CodeReviewState (src/app.py line 20), built by the UI with
all four keys present. -/
structure CodeReviewState where
  language : List Char
  code : List Char
  review : List Char
  error : List Char
deriving DecidableEq

/-- A dict returned by `review_code`: each of the four keys of the TypedDict
may be absent, as in the two early error returns that carry only `"error"`.
Field order: `language`, `code`, `review`, `error`. -/
structure StateDict where
  language : Option (List Char)
  code : Option (List Char)
  review : Option (List Char)
  error : Option (List Char)
deriving DecidableEq

/-- The value observed for the `review` entry, empty when the key is absent
(the UI reads it only when `error` is falsy, i.e. absent-or-empty and empty
behave alike). -/
def reviewField (r : StateDict) : List Char :=
  r.review.getD []

/-- The value observed for the `error` entry, empty when the key is absent. -/
def errorField (r : StateDict) : List Char :=
  r.error.getD []

def apiErrorHead : List Char := "API Error: ".data

def invalidFormatMsg : List Char := "Invalid response format from AI model".data

/-- The f-string prompt of src/app.py lines 68-80. -/
def buildPrompt (language original_code : List Char) : List Char :=
  "### Code Review Task for ".data ++ language ++
    "\nAnalyze this code for errors, correct them while preserving indentation, \nthen create an optimized version. Follow this format:\n\n**Issues:** List problems found\n**Corrected Code (Preserve Indentation):** ".data ++
    language ++ " code block with fixes\n**Optimized Code:** ".data ++
    language ++ " code block with improvements\n**Explanation:** Benefits of optimizations\n\nOriginal Code:\n```".data ++
    language ++ "\n".data ++ original_code ++ "\n```".data

/-- The function review_code (src/app.py line 63).  `invoke` is the external model call
`llm.invoke(prompt).content`: `Except.ok` a response text, or `Except.error`
the stringified exception caught by the `try`.  `astParse` is the `ast.parse`
oracle.  `Except.error` in the result models an exception escaping
`review_code` itself (only possible from `re.error` in
`extract_code_blocks`, which is outside the `try`). -/
def review_code (invoke : List Char → Except (List Char) (List Char))
    (astParse : List Char → Option (List Char))
    (state : CodeReviewState) : Except Unit StateDict :=
  let language := state.language
  let original_code := pyStrip state.code
  let prompt := buildPrompt language original_code
  match invoke prompt with
  | Except.error e => Except.ok ⟨none, none, none, some (apiErrorHead ++ e)⟩
  | Except.ok response =>
    if validate_response_format response then
      if pyLower language = "python".data then
        match extract_code_blocks response language with
        | Except.error u => Except.error u
        | Except.ok (corrected_code, _) =>
          let validation_msg :=
            match corrected_code with
            | some c => if c.isEmpty then [] else validate_python_syntax astParse c
            | none => []
          let response2 :=
            if validation_msg.isEmpty then response
            else response ++ '\n' :: '\n' :: validation_msg
          Except.ok ⟨some language, some original_code, some response2, some []⟩
      else
        Except.ok ⟨some language, some original_code, some response, some []⟩
    else Except.ok ⟨none, none, none, some invalidFormatMsg⟩

/-- The syntax annotation `review_code` computes for a format-valid response:
empty unless the language lower-cases to "python", the corrected slot of the
extraction is non-empty, and the extracted code fails to parse. -/
def reviewNote (astParse : List Char → Option (List Char))
    (language response : List Char) : List Char :=
  if pyLower language = "python".data then
    match (corrected_pattern_search response language).map pyStrip with
    | some c => if c.isEmpty then [] else validate_python_syntax astParse c
    | none => []
  else []

/-! Helper lemmas -/

theorem isAlnumLang_of_pyLower_python (l : List Char)
    (h : pyLower l = "python".data) : isAlnumLang l = true := by
  rw [isAlnumLang, List.all_eq_true]
  intro c hc
  have hmem : asciiLower c ∈ "python".data := by
    rw [← h]
    exact List.mem_map_of_mem _ hc
  by_cases hAZ : 'A' ≤ c ∧ c ≤ 'Z'
  · simp only [Bool.or_eq_true, Bool.and_eq_true, decide_eq_true_eq]
    exact Or.inl (Or.inr ⟨hAZ.1, hAZ.2⟩)
  · rw [asciiLower, if_neg hAZ] at hmem
    fin_cases hmem <;> decide

theorem langModelled_of_pyLower_python (l : List Char)
    (h : pyLower l = "python".data) : langModelled l = true := by
  rw [langModelled, isAlnumLang_of_pyLower_python l h]
  rfl

theorem validate_nil : validate_response_format [] = false := by decide

theorem validate_true_ne_nil (response : List Char)
    (h : validate_response_format response = true) : response ≠ [] := by
  intro hnil
  rw [hnil, validate_nil] at h
  cases h

theorem eq_nil_of_isEmpty (l : List Char) (h : l.isEmpty = true) : l = [] := by
  cases l with
  | nil => rfl
  | cons a t => cases h

theorem ne_nil_of_not_isEmpty (l : List Char) (h : ¬ l.isEmpty = true) : l ≠ [] := by
  intro hn
  rw [hn] at h
  exact h rfl

theorem isEmpty_false_of_ne_nil (l : List Char) (h : l ≠ []) : l.isEmpty = false := by
  cases l with
  | nil => exact absurd rfl h
  | cons a t => rfl

theorem review_code_err_shape (invoke : List Char → Except (List Char) (List Char))
    (astParse : List Char → Option (List Char)) (state : CodeReviewState)
    (e : List Char)
    (hinv : invoke (buildPrompt state.language (pyStrip state.code)) = Except.error e) :
    review_code invoke astParse state =
      Except.ok ⟨none, none, none, some (apiErrorHead ++ e)⟩ := by
  simp only [review_code, hinv]

theorem review_code_invalid_shape (invoke : List Char → Except (List Char) (List Char))
    (astParse : List Char → Option (List Char)) (state : CodeReviewState)
    (response : List Char)
    (hinv : invoke (buildPrompt state.language (pyStrip state.code)) = Except.ok response)
    (hv : ¬ validate_response_format response = true) :
    review_code invoke astParse state =
      Except.ok ⟨none, none, none, some invalidFormatMsg⟩ := by
  simp only [review_code, hinv]
  rw [if_neg hv]

theorem review_code_ok_shape (invoke : List Char → Except (List Char) (List Char))
    (astParse : List Char → Option (List Char))
    (state : CodeReviewState) (response : List Char)
    (hinv : invoke (buildPrompt state.language (pyStrip state.code)) = Except.ok response)
    (hv : validate_response_format response = true) :
    review_code invoke astParse state =
      Except.ok ⟨some state.language, some (pyStrip state.code),
        some (if (reviewNote astParse state.language response).isEmpty then response
          else response ++ '\n' :: '\n' :: reviewNote astParse state.language response),
        some []⟩ := by
  simp only [review_code, hinv]
  rw [if_pos hv]
  by_cases hl : pyLower state.language = "python".data
  · rw [if_pos hl]
    have hm := langModelled_of_pyLower_python _ hl
    rw [extract_code_blocks, if_pos hm]
    simp only [reviewNote, if_pos hl]
  · rw [if_neg hl]
    simp only [reviewNote, if_neg hl]
    simp

theorem review_code_total (invoke : List Char → Except (List Char) (List Char))
    (astParse : List Char → Option (List Char)) (state : CodeReviewState) :
    ∃ r, review_code invoke astParse state = Except.ok r := by
  simp only [review_code]
  cases hinv : invoke (buildPrompt state.language (pyStrip state.code)) with
  | error e => exact ⟨_, rfl⟩
  | ok response =>
    dsimp only
    by_cases hv : validate_response_format response = true
    · rw [if_pos hv]
      by_cases hl : pyLower state.language = "python".data
      · rw [if_pos hl]
        have hm := langModelled_of_pyLower_python _ hl
        rw [extract_code_blocks, if_pos hm]
        exact ⟨_, rfl⟩
      · rw [if_neg hl]
        exact ⟨_, rfl⟩
    · rw [if_neg hv]
      exact ⟨_, rfl⟩

theorem not_atLineStart_of_search_false (header s : List Char)
    (h : searchMultiline header s = false) : ¬ atLineStart header s := by
  intro ha
  rw [(searchMultiline_iff header s).mpr ha] at h
  cases h

/-! Concrete inputs used by the witnesses -/

/-- An `ast.parse` oracle under which every string parses. -/
def demoAstParse : List Char → Option (List Char) := fun _ => none

def demoState : CodeReviewState := ⟨"Python".data, "x = 1".data, [], []⟩

def demoValidResponse : List Char :=
  ("**Issues:**\nNone found.\n**Corrected Code (Preserve Indentation):**\n```Python\nx = 1\n```\n**Optimized Code:**\n```Python\nx = 1\n```\n**Explanation:**\nAll good.").data

/-- A response whose "**Explanation:**" header is missing. -/
def demoBadResponse : List Char :=
  ("**Issues:**\nNone.\n**Corrected Code (Preserve Indentation):**\n```Python\nx = 1\n```\n**Optimized Code:**\n```Python\nx = 1\n```").data

/-! The claims -/

/-- C1: for every model response text containing all four required section
headers, `review_code` returns a result whose `error` entry is the empty
string and whose `review` entry is the full response text, possibly followed
by an appended syntax note. -/
theorem claim1_valid_response_success
    (astParse : List Char → Option (List Char)) (state : CodeReviewState)
    (response : List Char)
    (hv : validate_response_format response = true) :
    ∃ r, review_code (fun _ => Except.ok response) astParse state = Except.ok r ∧
      errorField r = [] ∧
      (r.review = some response ∨
        ∃ note, note ≠ [] ∧ r.review = some (response ++ '\n' :: '\n' :: note)) := by
  refine ⟨_, review_code_ok_shape _ astParse state response rfl hv, rfl, ?_⟩
  by_cases hE : (reviewNote astParse state.language response).isEmpty = true
  · left
    simp [hE]
  · right
    exact ⟨reviewNote astParse state.language response,
      ne_nil_of_not_isEmpty _ hE, by simp [hE]⟩

theorem claim1_witness :
    validate_response_format demoValidResponse = true ∧
      ∃ r, review_code (fun _ => Except.ok demoValidResponse) demoAstParse demoState =
          Except.ok r ∧
        errorField r = [] ∧
        (r.review = some demoValidResponse ∨
          ∃ note, note ≠ [] ∧
            r.review = some (demoValidResponse ++ '\n' :: '\n' :: note)) :=
  ⟨by decide, claim1_valid_response_success demoAstParse demoState demoValidResponse
    (by decide)⟩

/-- C2: for every model response text with at least one of the four required
section headers missing, `review_code` returns a result whose `error` entry is
"Invalid response format from AI model" and which carries no `review` entry
(the raw response is discarded). -/
theorem claim2_missing_header_error
    (astParse : List Char → Option (List Char)) (state : CodeReviewState)
    (response : List Char)
    (h : ∃ sec ∈ required_sections, ¬ atLineStart sec response) :
    review_code (fun _ => Except.ok response) astParse state =
      Except.ok ⟨none, none, none, some invalidFormatMsg⟩ := by
  have hv : ¬ validate_response_format response = true := by
    intro hva
    obtain ⟨sec, hsec, hno⟩ := h
    exact hno ((validate_response_format_iff response).mp hva sec hsec)
  exact review_code_invalid_shape _ astParse state response rfl hv

theorem claim2_witness :
    review_code (fun _ => Except.ok demoBadResponse) demoAstParse demoState =
      Except.ok ⟨none, none, none, some invalidFormatMsg⟩ :=
  claim2_missing_header_error demoAstParse demoState demoBadResponse
    ⟨explanationHeader, by decide,
      not_atLineStart_of_search_false _ _ (by decide)⟩

/-- C3: whenever the model invocation raises, `review_code` returns a result
whose `error` entry is "API Error:" followed by the exception message, whose
observable `review` entry is empty, and which does not depend on the
downstream validation and extraction (the same record comes back for every
`ast.parse` oracle). -/
theorem claim3_api_error (emsg : List Char)
    (astParse : List Char → Option (List Char)) (state : CodeReviewState) :
    ∃ r, review_code (fun _ => Except.error emsg) astParse state = Except.ok r ∧
      errorField r = apiErrorHead ++ emsg ∧
      ("API Error:".data).isPrefixOf (errorField r) = true ∧
      reviewField r = [] ∧
      ∀ astParse2, review_code (fun _ => Except.error emsg) astParse2 state =
        Except.ok r := by
  refine ⟨⟨none, none, none, some (apiErrorHead ++ emsg)⟩,
    review_code_err_shape _ astParse state emsg rfl, rfl, ?_, rfl,
    fun astParse2 => review_code_err_shape _ astParse2 state emsg rfl⟩
  show ("API Error:".data).isPrefixOf (apiErrorHead ++ emsg) = true
  have h1 : apiErrorHead = "API Error:".data ++ [' '] := by decide
  rw [h1, List.append_assoc]
  exact List.isPrefixOf_iff_prefix.mpr ⟨[' '] ++ emsg, rfl⟩

/-- C5: validate_response_format returns true exactly when each of the four
bolded headers occurs at the start of some line of the text; nothing
constrains the relative order of the four headers. -/
theorem claim5_validate_iff (response : List Char) :
    validate_response_format response = true ↔
      ∀ sec ∈ required_sections, atLineStart sec response :=
  validate_response_format_iff response

/-- C9: with the model invocation fixed to return a given response text,
`review_code` is deterministic: two invocations on the same input state
produce identical output records. -/
theorem claim9_deterministic (response : List Char)
    (astParse : List Char → Option (List Char)) (s1 s2 : CodeReviewState)
    (h : s1 = s2) :
    review_code (fun _ => Except.ok response) astParse s1 =
      review_code (fun _ => Except.ok response) astParse s2 := by
  rw [h]

theorem claim9_witness :
    review_code (fun _ => Except.ok demoValidResponse) demoAstParse demoState =
      review_code (fun _ => Except.ok demoValidResponse) demoAstParse demoState :=
  claim9_deterministic demoValidResponse demoAstParse demoState demoState rfl

/-- C4 (amended): whenever `extract_code_blocks` returns a tuple, its two
components are equal; and for every language made of ASCII letters and
digits — the languages whose interpolation is a literal tag, covering every
language the pipeline extracts for — both components are the trimmed contents
of the first fenced code block tagged with the language, or both `none` when
no such block exists.  For "C++" the compiled pattern matches a run of C
rather than a literal "C++" tag, so the tagged-block reading fails there (see
the counterexample below). -/
theorem claim4_extract_components_equal (response language : List Char)
    (p : Option (List Char) × Option (List Char))
    (h : extract_code_blocks response language = Except.ok p) :
    p.1 = p.2 ∧
      (isAlnumLang language = true →
        (p.1 = none → ∀ content i, ¬ blockAt response language content i) ∧
        ∀ c, p.1 = some c →
          ∃ raw, firstBlockIs response language raw ∧ c = pyStrip raw) := by
  rw [extract_code_blocks] at h
  by_cases hm : langModelled language = true
  · rw [if_pos hm, Except.ok.injEq] at h
    subst h
    refine ⟨rfl, ?_⟩
    intro halnum
    constructor
    · intro hnone content i
      have h0 : corrected_pattern_search response language = none :=
        Option.map_eq_none'.mp hnone
      rw [corrected_pattern_search, if_pos halnum] at h0
      exact searchFirstBlock_none_noBlock response language h0 content i
    · intro c hc
      obtain ⟨raw, hraw, hcmap⟩ := Option.map_eq_some'.mp hc
      rw [corrected_pattern_search, if_pos halnum] at hraw
      exact ⟨raw, searchFirstBlock_some_firstBlock response language raw hraw,
        hcmap.symm⟩
  · rw [if_neg hm] at h
    cases h

/-- A response holding one fenced block tagged "C", none tagged "C++". -/
def cexResponse : List Char := "```C\nfoo\n```".data

/-- C4 counterexample: at language "C++" a tuple is returned although the
response holds no fenced block tagged with the language, and its components
are not `none` — the compiled pattern (possessive repeat on CPython 3.11 and
later) matched the block tagged "C".  This refutes the tagged-block
characterization quantified over every language. -/
theorem claim4_counterexample :
    ¬ ∀ p : Option (List Char) × Option (List Char),
        extract_code_blocks cexResponse "C++".data = Except.ok p →
          ((∃ raw, firstBlockIs cexResponse "C++".data raw ∧
              p.1 = some (pyStrip raw) ∧ p.2 = some (pyStrip raw)) ∨
            (p.1 = none ∧ p.2 = none ∧
              ∀ content i, ¬ blockAt cexResponse "C++".data content i)) := by
  intro hall
  have h := hall (some "foo".data, some "foo".data) (by rfl)
  rcases h with ⟨raw, hfb, _, _⟩ | ⟨hnone, _, _⟩
  · obtain ⟨i, hblock, _⟩ := hfb
    exact searchFirstBlock_none_noBlock cexResponse "C++".data rfl raw i hblock
  · cases hnone

def demoExtractPair : Option (List Char) × Option (List Char) :=
  (some "x = 1".data, some "x = 1".data)

theorem claim4_witness :
    demoExtractPair.1 = demoExtractPair.2 ∧
      (isAlnumLang "Python".data = true →
        (demoExtractPair.1 = none →
          ∀ content i, ¬ blockAt demoValidResponse "Python".data content i) ∧
        ∀ c, demoExtractPair.1 = some c →
          ∃ raw, firstBlockIs demoValidResponse "Python".data raw ∧
            c = pyStrip raw) :=
  claim4_extract_components_equal demoValidResponse "Python".data demoExtractPair
    (by rfl)

/-- C6: when the language lower-cases to "python", the response passes format
validation, and the extracted corrected code fails to parse, `review_code`
still returns an empty `error` entry and appends the syntax-error annotation
to the review text instead of halting. -/
theorem claim6_syntax_note (astParse : List Char → Option (List Char))
    (state : CodeReviewState) (response c emsg : List Char)
    (hlang : pyLower state.language = "python".data)
    (hv : validate_response_format response = true)
    (hex : (corrected_pattern_search response state.language).map pyStrip = some c)
    (hc : c ≠ [])
    (hparse : astParse c = some emsg) :
    review_code (fun _ => Except.ok response) astParse state =
      Except.ok ⟨some state.language, some (pyStrip state.code),
        some (response ++ '\n' :: '\n' :: (syntaxErrorBanner ++ emsg)), some []⟩ := by
  rw [review_code_ok_shape _ astParse state response rfl hv]
  have hnote : reviewNote astParse state.language response =
      syntaxErrorBanner ++ emsg := by
    rw [reviewNote, if_pos hlang, hex]
    dsimp only
    rw [isEmpty_false_of_ne_nil c hc]
    simp [hparse, validate_python_syntax ]
  rw [hnote]
  have hb : (syntaxErrorBanner ++ emsg).isEmpty = false := by
    apply isEmpty_false_of_ne_nil
    intro hcontra
    exact absurd (List.append_eq_nil.mp hcontra).1 (by decide)
  rw [hb]
  simp

def demoMalformed : List Char := "def f(: return 1".data

def demoParseErr : List Char := "invalid syntax (<unknown>, line 1)".data

/-- An `ast.parse` oracle that rejects exactly the malformed demo snippet. -/
def demoAstParseBad : List Char → Option (List Char) :=
  fun code => if code = demoMalformed then some demoParseErr else none

def demoBadCodeResponse : List Char :=
  ("**Issues:**\nBroken def.\n**Corrected Code (Preserve Indentation):**\n```Python\ndef f(: return 1\n```\n**Optimized Code:**\n```Python\ndef f(: return 1\n```\n**Explanation:**\nNone.").data

theorem claim6_witness :
    review_code (fun _ => Except.ok demoBadCodeResponse) demoAstParseBad demoState =
      Except.ok ⟨some demoState.language, some (pyStrip demoState.code),
        some (demoBadCodeResponse ++ '\n' :: '\n' ::
          (syntaxErrorBanner ++ demoParseErr)), some []⟩ :=
  claim6_syntax_note demoAstParseBad demoState demoBadCodeResponse demoMalformed
    demoParseErr (by decide) (by decide) (by decide) (by decide) (by decide)

/-- C7: for every language that does not lower-case to "python", the
syntax-checking step is a no-op: on a format-valid response `review_code`
returns the raw model response with no annotation appended. -/
theorem claim7_non_python (astParse : List Char → Option (List Char))
    (state : CodeReviewState) (response : List Char)
    (hlang : pyLower state.language ≠ "python".data)
    (hv : validate_response_format response = true) :
    review_code (fun _ => Except.ok response) astParse state =
      Except.ok ⟨some state.language, some (pyStrip state.code),
        some response, some []⟩ := by
  rw [review_code_ok_shape _ astParse state response rfl hv]
  have hnote : reviewNote astParse state.language response = [] := by
    rw [reviewNote, if_neg hlang]
  rw [hnote]
  simp

def demoJsState : CodeReviewState := ⟨"JavaScript".data, "let x = 1;".data, [], []⟩

theorem claim7_witness :
    review_code (fun _ => Except.ok demoValidResponse) demoAstParse demoJsState =
      Except.ok ⟨some demoJsState.language, some (pyStrip demoJsState.code),
        some demoValidResponse, some []⟩ :=
  claim7_non_python demoAstParse demoJsState demoValidResponse (by decide) (by decide)

/-- C8: for every input state and every outcome of the two oracles, the
result of `review_code` has exactly one of its `review` and `error` entries
non-empty. -/
theorem claim8_exactly_one (invoke : List Char → Except (List Char) (List Char))
    (astParse : List Char → Option (List Char)) (state : CodeReviewState) :
    ∃ r, review_code invoke astParse state = Except.ok r ∧
      ((reviewField r = [] ∧ errorField r ≠ []) ∨
        (reviewField r ≠ [] ∧ errorField r = [])) := by
  cases hinv : invoke (buildPrompt state.language (pyStrip state.code)) with
  | error e =>
    refine ⟨_, review_code_err_shape invoke astParse state e hinv, Or.inl ⟨rfl, ?_⟩⟩
    intro h
    exact absurd (List.append_eq_nil.mp h).1 (by decide)
  | ok response =>
    by_cases hv : validate_response_format response = true
    · refine ⟨_, review_code_ok_shape invoke astParse state response hinv hv,
        Or.inr ⟨?_, rfl⟩⟩
      have hrne := validate_true_ne_nil response hv
      by_cases hE : (reviewNote astParse state.language response).isEmpty = true
      · simpa [reviewField, hE] using hrne
      · simp only [reviewField, Option.getD_some]
        rw [if_neg hE]
        intro hcontra
        exact absurd (List.append_eq_nil.mp hcontra).2 (List.cons_ne_nil _ _)
    · refine ⟨_, review_code_invalid_shape invoke astParse state response hinv hv,
        Or.inl ⟨rfl, by decide⟩⟩

/-- C10 counterexample: the claim asserts the extractor raises for "C++"
instead of returning a tuple; on CPython 3.11 and later the pattern compiles
(the doubled plus is a possessive repeat) and a tuple comes back. -/
theorem claim10_counterexample :
    extract_code_blocks cexResponse "C++".data =
      Except.ok (some "foo".data, some "foo".data) := by rfl

/-- A response holding one fenced block tagged literally "C++". -/
def cexCppTagged : List Char := "```C++\nbar\n```".data

/-- C10 (amended): the language string is interpolated unescaped into the
regular expression, so for the fixed UI option "C++" the meaning of the
pattern is corrupted rather than raising: under CPython 3.11 and later the
doubled plus compiles as a possessive repeat, `extract_code_blocks` returns a
tuple (with equal components) for every response, matching a block tagged
with a run of C and never a literal "C++" tag; `review_code` is unaffected,
because it runs the extractor only when the language lower-cases to "python",
where every character is a regex literal, and no exception ever escapes
`review_code`. -/
theorem claim10_cpp_possessive :
    (∀ response, ∃ p, extract_code_blocks response "C++".data = Except.ok p ∧
      p.1 = p.2) ∧
      extract_code_blocks cexResponse "C++".data =
        Except.ok (some "foo".data, some "foo".data) ∧
      extract_code_blocks cexCppTagged "C++".data = Except.ok (none, none) ∧
      pyLower "C++".data ≠ "python".data ∧
      (∀ language, pyLower language = "python".data → isAlnumLang language = true) ∧
      ∀ invoke astParse state,
        ∃ r, review_code invoke astParse state = Except.ok r := by
  refine ⟨?_, by rfl, by rfl, by decide, isAlnumLang_of_pyLower_python,
    review_code_total⟩
  intro response
  have hm : langModelled "C++".data = true := by decide
  exact ⟨_, by rw [extract_code_blocks, if_pos hm], rfl⟩

end PeerCodeReview
